import Mathlib

/-!
Shallow embedding of the `remove-duplications-elasticsearch` program
(`src/remove_duplications_elasticsearch/main.py`, `utils.py`, `config.py`)
and proofs about its deduplication pipeline.

Python dict/JSON values reachable from the `_source` of a document are modelled
by the mutual inductive `Value`/`Entries`: `Value.scalar` stands for a
non-mapping Python value (string, number, boolean, ...), identified by a
string carrier since the code only compares such values for equality and
never inspects them; `Value.dict` is a string-keyed mapping with insertion
order, matching a Python `dict`.  Python sets hash their elements, and a
`dict` is unhashable: `Value.hashable` marks the mappings as unhashable
(non-mapping unhashable containers such as lists are abstracted by the
scalar carrier and not distinguished), and `scanLoopPy` is the scan loop
with that `TypeError` path made explicit.

Python strings are Lean `String`s; the string helpers the code uses
(`str.split(".")`, `str.strip()`, `str.lower()`) are re-implemented on the
character list so that they compute by kernel reduction.
-/

mutual
inductive Value where
  | scalar : String → Value
  | dict : Entries → Value

inductive Entries where
  | nil : Entries
  | cons : String → Value → Entries → Entries
end

mutual
def Value.decEq : (a b : Value) → Decidable (a = b)
  | .scalar x, .scalar y =>
    if h : x = y then .isTrue (by rw [h]) else .isFalse (by intro hh; cases hh; exact h rfl)
  | .scalar _, .dict _ => .isFalse (by intro hh; cases hh)
  | .dict _, .scalar _ => .isFalse (by intro hh; cases hh)
  | .dict xs, .dict ys =>
    match Entries.decEq xs ys with
    | .isTrue h => .isTrue (by rw [h])
    | .isFalse h => .isFalse (by intro hh; cases hh; exact h rfl)

def Entries.decEq : (xs ys : Entries) → Decidable (xs = ys)
  | .nil, .nil => .isTrue rfl
  | .nil, .cons _ _ _ => .isFalse (by intro hh; cases hh)
  | .cons _ _ _, .nil => .isFalse (by intro hh; cases hh)
  | .cons k1 v1 r1, .cons k2 v2 r2 =>
    if hk : k1 = k2 then
      match Value.decEq v1 v2, Entries.decEq r1 r2 with
      | .isTrue hv, .isTrue hr => .isTrue (by rw [hk, hv, hr])
      | .isFalse hv, _ => .isFalse (by intro hh; cases hh; exact hv rfl)
      | _, .isFalse hr => .isFalse (by intro hh; cases hh; exact hr rfl)
    else .isFalse (by intro hh; cases hh; exact hk rfl)
end

instance : DecidableEq Value := Value.decEq

instance : DecidableEq Entries := Entries.decEq

/-- Model of Python `s.split(".")` on the character list: split at every
dot, keeping empty segments (so `"".split(".") = [""]`). -/
def splitDotAux : List Char → List Char → List String
  | [], acc => [String.mk acc.reverse]
  | c :: cs, acc =>
    if c = '.' then String.mk acc.reverse :: splitDotAux cs [] else splitDotAux cs (c :: acc)

/-- Model of Python `dot_notation_string.split(".")`. -/
def pySplitDot (s : String) : List String := splitDotAux s.data []

/-- Drop leading whitespace characters, as one side of Python `str.strip()`. -/
def dropLeadingSpaces : List Char → List Char
  | [] => []
  | c :: cs => if c.isWhitespace then dropLeadingSpaces cs else c :: cs

/-- Model of Python `str.strip()`: remove leading and trailing whitespace. -/
def pyStrip (s : String) : String :=
  String.mk ((dropLeadingSpaces ((dropLeadingSpaces s.data).reverse)).reverse)

/-- Model of Python `str.lower()` (ASCII case folding, which covers every
accepted boolean form). -/
def pyLower (s : String) : String := String.mk (s.data.map Char.toLower)

/-- The error raised while walking the comparison path in
`get_value_from_dict`: `valueError key` is the `ValueError` raised when
`key` is absent from the current mapping level, and `attributeError` is the
`AttributeError` Python raises for `data.keys()` when the current value is
not a mapping. -/
inductive ExtractError where
  | valueError : String → ExtractError
  | attributeError : ExtractError
deriving DecidableEq

/-- Membership-and-lookup for one mapping level: the Python test
`key in data.keys()` followed by `data[key]`. -/
def lookupEntry (key : String) : Entries → Option Value
  | .nil => none
  | .cons k v rest => if k = key then some v else lookupEntry key rest

/-- The loop of `get_value_from_dict`: walk the split path segments through
the nested mapping.  On a non-mapping intermediate value the Python call
`data.keys()` raises `AttributeError`; on a missing key the code raises
`ValueError`. -/
def walkKeys : List String → Value → Except ExtractError Value
  | [], data => .ok data
  | key :: rest, data =>
    match data with
    | .scalar _ => .error .attributeError
    | .dict entries =>
      match lookupEntry key entries with
      | some v => walkKeys rest v
      | none => .error (.valueError key)

/-- Model of `main.get_value_from_dict`: split the dotted path and walk it through
the field mapping of the document. -/
def get_value_from_dict (dot_notation_string : String) (data : Value) : Except ExtractError Value :=
  walkKeys (pySplitDot dot_notation_string) data

/-- Model of `utils.str_to_bool`: normalize by strip + lower, then classify against
the accepted textual forms; any other string raises `ValueError`, modelled
as `Except.error` carrying the message. -/
def str_to_bool (string : String) : Except String Bool :=
  let true_values : List String := ["true", "yes", "y", "1", "t"]
  let false_values : List String := ["false", "no", "n", "0", "f"]
  let normalized := pyLower (pyStrip string)
  if normalized ∈ true_values then .ok true
  else if normalized ∈ false_values then .ok false
  else .error ("Cannot convert " ++ string ++ " to a bool")

/-- A document as delivered by the index scan: its `_id` and its `_source`
field mapping. -/
structure Document where
  id : String
  source : Value
deriving DecidableEq

/-- One bulk delete action `{"_op_type": "delete", "_index": index, "_id": id}`. -/
structure DeleteAction where
  op_type : String
  index : String
  id : String
deriving DecidableEq

/-- The delete action `get_bulk_actions` appends for a duplicate document. -/
def mkDeleteAction (index id : String) : DeleteAction := ⟨"delete", index, id⟩

/-- The three accumulators of the loop in `get_bulk_actions`:
`seen_values` (a Python set, modelled as a duplicate-free list used only
through membership), `bulk_actions` and `exceptions` (Python lists,
appended at the end). -/
structure ScanState where
  seen_values : List Value
  bulk_actions : List DeleteAction
  exceptions : List ExtractError
deriving DecidableEq

/-- The `for doc in documents` loop of `get_bulk_actions`: for each
document try to extract the comparison value; on failure record the
exception and continue; on success either emit a delete action (value
already seen) or record the value as seen.  The Python seen set hashes
its elements, so this total loop models the behaviour over hashable
comparison values (the data model of the spec requires KeyValue to be
hashable); `scanLoopPy` below is the same loop with the uncaught
`TypeError` on an unhashable extracted value made explicit. -/
def scanLoop (cf index : String) :
    List Document → List Value → List DeleteAction → List ExtractError → ScanState
  | [], seen, acts, errs => ⟨seen, acts, errs⟩
  | d :: ds, seen, acts, errs =>
    match get_value_from_dict cf d.source with
    | .error e => scanLoop cf index ds seen acts (errs ++ [e])
    | .ok v =>
      if v ∈ seen then scanLoop cf index ds seen (acts ++ [mkDeleteAction index d.id]) errs
      else scanLoop cf index ds (seen ++ [v]) acts errs

/-- Model of `main.get_bulk_actions`: run the scan loop over all documents, then
raise the `ExceptionGroup` carrying every collected extraction failure if
there is at least one, otherwise return the collected bulk actions. -/
def get_bulk_actions (documents : List Document) (comparison_field index : String) :
    Except (List ExtractError) (List DeleteAction) :=
  let st := scanLoop comparison_field index documents [] [] []
  if st.exceptions.length > 0 then .error st.exceptions else .ok st.bulk_actions

/-- The extraction failures collected over a document list, in scan order:
one entry per document whose comparison-value extraction fails.  This is
independent of the seen-value set. -/
def errsOf (cf : String) (docs : List Document) : List ExtractError :=
  docs.filterMap fun d =>
    match get_value_from_dict cf d.source with
    | .error e => some e
    | .ok _ => none

/-- Direct (non-accumulator) form of the delete actions the scan emits,
given the set of values already seen. -/
def dupActs (cf index : String) (seen : List Value) : List Document → List DeleteAction
  | [] => []
  | d :: ds =>
    match get_value_from_dict cf d.source with
    | .error _ => dupActs cf index seen ds
    | .ok v =>
      if v ∈ seen then mkDeleteAction index d.id :: dupActs cf index seen ds
      else dupActs cf index (seen ++ [v]) ds

/-- Direct form of the seen-value set after scanning a document list. -/
def seenAfter (cf : String) (seen : List Value) : List Document → List Value
  | [] => seen
  | d :: ds =>
    match get_value_from_dict cf d.source with
    | .error _ => seenAfter cf seen ds
    | .ok v => if v ∈ seen then seenAfter cf seen ds else seenAfter cf (seen ++ [v]) ds

/-- The documents the scan marks as duplicates (those that receive a
delete action), in scan order. -/
def dupDocs (cf : String) (seen : List Value) : List Document → List Document
  | [] => []
  | d :: ds =>
    match get_value_from_dict cf d.source with
    | .error _ => dupDocs cf seen ds
    | .ok v =>
      if v ∈ seen then d :: dupDocs cf seen ds
      else dupDocs cf (seen ++ [v]) ds

/-- The documents the scan does not mark as duplicates: first occurrences
and extraction failures.  Removing exactly the marked duplicates from the
input leaves this list. -/
def survivors (cf : String) (seen : List Value) : List Document → List Document
  | [] => []
  | d :: ds =>
    match get_value_from_dict cf d.source with
    | .error _ => d :: survivors cf seen ds
    | .ok v =>
      if v ∈ seen then survivors cf seen ds
      else d :: survivors cf (seen ++ [v]) ds

/-- Per-position duplicate flags over a key list: position `i` is `true`
exactly when the key at `i` is in `seen` or occurred at an earlier
position. -/
def dupFlags (seen : List Value) : List Value → List Bool
  | [] => []
  | v :: vs => if v ∈ seen then true :: dupFlags seen vs else false :: dupFlags (seen ++ [v]) vs

/-- Select the elements of a list at the positions flagged `true`. -/
def maskTrue {α : Type} : List Bool → List α → List α
  | true :: bs, a :: as => a :: maskTrue bs as
  | false :: bs, _ :: as => maskTrue bs as
  | _, _ => []

/-- One observable call issued to the index client. -/
inductive Event where
  | scanCall : String → Event
  | bulkCall : List DeleteAction → Event
  | refreshCall : String → Event
deriving DecidableEq

/-- Whether an event mutates (or makes visible a mutation of) the index:
the batch delete and the refresh do, the read-only scan does not. -/
def Event.isMutation : Event → Bool
  | .scanCall _ => false
  | .bulkCall _ => true
  | .refreshCall _ => true

/-- The delete actions a trace submits to the index through batch calls. -/
def submittedActions : List Event → List DeleteAction
  | [] => []
  | .bulkCall as :: es => as ++ submittedActions es
  | .scanCall _ :: es => submittedActions es
  | .refreshCall _ :: es => submittedActions es

/-- Behaviour of the external index client for one run: the per-action
failures the batch-delete call reports (`helpers.bulk` is an external
collaborator; the spec describes it as reporting individual per-action
failures, which the code binds as `bulk_errors`), and whether the
`indices.refresh` call succeeds. -/
structure ClientBehavior where
  bulk_errors : List String
  refresh_ok : Bool
deriving DecidableEq

/-- Errors `remove_documents` can raise: `FailedToRefreshIndex` for a
failing refresh call and the `ExceptionGroup` carrying the per-action bulk
failures. -/
inductive RemoveError where
  | refreshFailed : String → RemoveError
  | bulkErrors : List String → RemoveError
deriving DecidableEq

/-- Model of `main.remove_documents`: submit the batch delete first (binding the
reported per-action failures), then attempt the index refresh — raising
`FailedToRefreshIndex` if it errors — and only then raise the
`ExceptionGroup` if the batch reported any failures.  The returned trace
lists the client calls in program order; the second component is the error
the function raises, if any. -/
def remove_documents (cb : ClientBehavior) (actions : List DeleteAction) (index : String) :
    List Event × Option RemoveError :=
  let bulk_errors := cb.bulk_errors
  let events := [Event.bulkCall actions, Event.refreshCall index]
  if cb.refresh_ok = false then (events, some (.refreshFailed index))
  else if bulk_errors.length > 0 then (events, some (.bulkErrors bulk_errors))
  else (events, none)

/-- The configuration surface read by `config.py`: the five required
environment variables (absent = `none`) and `DRY_RUN`, which defaults to
the string `"false"` and is therefore always present. -/
structure Config where
  es_url : Option String
  es_user : Option String
  es_password : Option String
  es_index : Option String
  document_comparison_field : Option String
  dry_run : String
deriving DecidableEq

/-- Errors `main` can raise, in the order its stages can produce them. -/
inductive MainError where
  | failedToGetAllEnvironmentVariables : MainError
  | aggregatedExtraction : List ExtractError → MainError
  | invalidDryRun : String → MainError
  | removeErr : RemoveError → MainError
deriving DecidableEq

/-- Outcome of one `main` run: the index-client calls issued, the error
raised (if any), and the actions printed for audit in dry-run mode. -/
structure RunOutput where
  events : List Event
  error : Option MainError
  logged_actions : List DeleteAction
deriving DecidableEq

/-- The pipeline of `main` after the configuration check, for a resolved
index name, comparison field and dry-run string.  `helpers.scan` is lazy;
its single traversal (the `scanCall` event) happens while
`get_bulk_actions` consumes the stream, before the dry-run flag is ever
parsed.  If the per-document scan collected failures, the aggregated
extraction error propagates; if no duplicates were found `main` returns
early; otherwise `str_to_bool(config.DRY_RUN)` is parsed — an invalid
value raises `ValueError` here — and the run either logs the actions
(dry run) or calls `remove_documents`. -/
def main_core (index cf dry_run : String) (docs : List Document) (cb : ClientBehavior) :
    RunOutput :=
  let st := scanLoop cf index docs [] [] []
  if st.exceptions.length > 0 then ⟨[.scanCall index], some (.aggregatedExtraction st.exceptions), []⟩
  else if st.bulk_actions.length = 0 then ⟨[.scanCall index], none, []⟩
  else
    match str_to_bool dry_run with
    | .error _ => ⟨[.scanCall index], some (.invalidDryRun dry_run), []⟩
    | .ok true => ⟨[.scanCall index], none, st.bulk_actions⟩
    | .ok false =>
      let r := remove_documents cb st.bulk_actions index
      ⟨Event.scanCall index :: r.1, r.2.map .removeErr, []⟩

/-- Model of `main.main`: raise `FailedToGetAllEnvironmentVariables` when any of
the five required settings is absent — before any index access — and
otherwise run the pipeline.  (The guarded `fetch_all_documents` call only
builds the lazy scan generator, so it cannot fail here.) -/
def main_run (cfg : Config) (docs : List Document) (cb : ClientBehavior) : RunOutput :=
  match cfg.es_index, cfg.es_url, cfg.es_user, cfg.es_password, cfg.document_comparison_field with
  | some index, some _, some _, some _, some cf => main_core index cf cfg.dry_run docs cb
  | _, _, _, _, _ => ⟨[], some .failedToGetAllEnvironmentVariables, []⟩

/-- Whether a value can be an element of a Python set: a field mapping
(`dict`) is unhashable, so `unique_field_value in seen_values` and
`seen_values.add(...)` raise `TypeError` on it; the scalar carrier stands
for the hashable non-mapping values.  (Python containers that are neither
mappings nor hashable, such as lists, are abstracted by the scalar
carrier and not distinguished by this model.) -/
def Value.hashable : Value → Bool
  | .scalar _ => true
  | .dict _ => false

/-- Outcome of the faithful scan loop: either the loop finishes with the
three accumulators, or it dies with the uncaught `TypeError` Python
raises at the set-membership test on an unhashable extracted comparison
value (carried here), since that test sits outside the try/except. -/
inductive PyScanResult where
  | finished : ScanState → PyScanResult
  | typeError : Value → PyScanResult
deriving DecidableEq

/-- The scan loop of `get_bulk_actions` with the Python set semantics
made explicit: after a successful extraction the code evaluates
`unique_field_value in seen_values` outside the try/except, which hashes
the value; on an unhashable value this raises `TypeError` and the loop
dies there, never reaching the remaining documents.  On hashable values
it behaves exactly like `scanLoop`. -/
def scanLoopPy (cf index : String) :
    List Document → List Value → List DeleteAction → List ExtractError → PyScanResult
  | [], seen, acts, errs => .finished ⟨seen, acts, errs⟩
  | d :: ds, seen, acts, errs =>
    match get_value_from_dict cf d.source with
    | .error e => scanLoopPy cf index ds seen acts (errs ++ [e])
    | .ok v =>
      if v.hashable = false then .typeError v
      else if v ∈ seen then scanLoopPy cf index ds seen (acts ++ [mkDeleteAction index d.id]) errs
      else scanLoopPy cf index ds (seen ++ [v]) acts errs

/-- Outcome of `get_bulk_actions` over the faithful loop: the uncaught
`TypeError` from the set operations, the `ExceptionGroup` carrying the
collected extraction failures, or a normal return. -/
inductive PyBulkResult where
  | raisedTypeError : Value → PyBulkResult
  | raisedExceptionGroup : List ExtractError → PyBulkResult
  | returned : List DeleteAction → PyBulkResult
deriving DecidableEq

/-- Model of `main.get_bulk_actions` over the faithful loop `scanLoopPy`:
a `TypeError` from the set operations propagates uncaught — it is not an
extraction failure, and the function has no handler for it. -/
def get_bulk_actions_py (documents : List Document) (comparison_field index : String) :
    PyBulkResult :=
  match scanLoopPy comparison_field index documents [] [] [] with
  | .typeError v => .raisedTypeError v
  | .finished st =>
    if st.exceptions.length > 0 then .raisedExceptionGroup st.exceptions
    else .returned st.bulk_actions

/-- The successfully extracted comparison values of a document list, in
scan order. -/
def okValues (cf : String) (docs : List Document) : List Value :=
  docs.filterMap fun d => (get_value_from_dict cf d.source).toOption

theorem scanLoop_eq (cf index : String) (ds : List Document) :
    ∀ (seen : List Value) (acts : List DeleteAction) (errs : List ExtractError),
    scanLoop cf index ds seen acts errs =
      ⟨seenAfter cf seen ds, acts ++ dupActs cf index seen ds, errs ++ errsOf cf ds⟩ := by
  induction ds with
  | nil => intro seen acts errs; simp [scanLoop, seenAfter, dupActs, errsOf]
  | cons d ds ih =>
    intro seen acts errs
    cases h : get_value_from_dict cf d.source with
    | error e =>
      simp [scanLoop, seenAfter, dupActs, errsOf, h, ih, List.filterMap_cons]
    | ok v =>
      by_cases hv : v ∈ seen
      · simp [scanLoop, seenAfter, dupActs, errsOf, h, hv, ih, List.filterMap_cons]
      · simp [scanLoop, seenAfter, dupActs, errsOf, h, hv, ih, List.filterMap_cons]

theorem get_bulk_actions_eq (docs : List Document) (cf index : String) :
    get_bulk_actions docs cf index =
      if errsOf cf docs = [] then .ok (dupActs cf index [] docs)
      else .error (errsOf cf docs) := by
  unfold get_bulk_actions
  rw [scanLoop_eq]
  rcases h : errsOf cf docs with _ | ⟨e, es⟩ <;> simp [h]

theorem okValues_cons_ok (cf : String) (d : Document) (ds : List Document) (v : Value)
    (h : get_value_from_dict cf d.source = Except.ok v) :
    okValues cf (d :: ds) = v :: okValues cf ds := by
  simp [okValues, List.filterMap_cons, h, Except.toOption]

theorem okValues_cons_error (cf : String) (d : Document) (ds : List Document) (e : ExtractError)
    (h : get_value_from_dict cf d.source = Except.error e) :
    okValues cf (d :: ds) = okValues cf ds := by
  simp [okValues, List.filterMap_cons, h, Except.toOption]

theorem errsOf_cons_ok (cf : String) (d : Document) (ds : List Document) (v : Value)
    (h : get_value_from_dict cf d.source = Except.ok v) :
    errsOf cf (d :: ds) = errsOf cf ds := by
  simp [errsOf, List.filterMap_cons, h]

theorem errsOf_cons_error (cf : String) (d : Document) (ds : List Document) (e : ExtractError)
    (h : get_value_from_dict cf d.source = Except.error e) :
    errsOf cf (d :: ds) = e :: errsOf cf ds := by
  simp [errsOf, List.filterMap_cons, h]

theorem seenAfter_cons_error (cf : String) (d : Document) (ds : List Document)
    (seen : List Value) (e : ExtractError)
    (h : get_value_from_dict cf d.source = Except.error e) :
    seenAfter cf seen (d :: ds) = seenAfter cf seen ds := by
  simp [seenAfter, h]

theorem seenAfter_cons_seen (cf : String) (d : Document) (ds : List Document)
    (seen : List Value) (v : Value)
    (h : get_value_from_dict cf d.source = Except.ok v) (hv : v ∈ seen) :
    seenAfter cf seen (d :: ds) = seenAfter cf seen ds := by
  simp [seenAfter, h, hv]

theorem seenAfter_cons_new (cf : String) (d : Document) (ds : List Document)
    (seen : List Value) (v : Value)
    (h : get_value_from_dict cf d.source = Except.ok v) (hv : v ∉ seen) :
    seenAfter cf seen (d :: ds) = seenAfter cf (seen ++ [v]) ds := by
  simp [seenAfter, h, hv]

theorem dupActs_cons_error (cf index : String) (d : Document) (ds : List Document)
    (seen : List Value) (e : ExtractError)
    (h : get_value_from_dict cf d.source = Except.error e) :
    dupActs cf index seen (d :: ds) = dupActs cf index seen ds := by
  simp [dupActs, h]

theorem dupActs_cons_seen (cf index : String) (d : Document) (ds : List Document)
    (seen : List Value) (v : Value)
    (h : get_value_from_dict cf d.source = Except.ok v) (hv : v ∈ seen) :
    dupActs cf index seen (d :: ds) = mkDeleteAction index d.id :: dupActs cf index seen ds := by
  simp [dupActs, h, hv]

theorem dupActs_cons_new (cf index : String) (d : Document) (ds : List Document)
    (seen : List Value) (v : Value)
    (h : get_value_from_dict cf d.source = Except.ok v) (hv : v ∉ seen) :
    dupActs cf index seen (d :: ds) = dupActs cf index (seen ++ [v]) ds := by
  simp [dupActs, h, hv]

theorem okValues_of_all_ok (cf : String) (docs : List Document) (keys : List Value)
    (h : docs.map (fun d => get_value_from_dict cf d.source) = keys.map Except.ok) :
    okValues cf docs = keys := by
  induction docs generalizing keys with
  | nil =>
    cases keys with
    | nil => rfl
    | cons k ks => simp at h
  | cons d ds ih =>
    cases keys with
    | nil => simp at h
    | cons k ks =>
      simp only [List.map_cons, List.cons.injEq] at h
      rw [okValues_cons_ok cf d ds k h.1, ih ks h.2]

theorem errsOf_of_all_ok (cf : String) (docs : List Document) (keys : List Value)
    (h : docs.map (fun d => get_value_from_dict cf d.source) = keys.map Except.ok) :
    errsOf cf docs = [] := by
  induction docs generalizing keys with
  | nil => rfl
  | cons d ds ih =>
    cases keys with
    | nil => simp at h
    | cons k ks =>
      simp only [List.map_cons, List.cons.injEq] at h
      rw [errsOf_cons_ok cf d ds k h.1]
      exact ih ks h.2

theorem dupActs_mask (cf index : String) (docs : List Document) (keys : List Value)
    (h : docs.map (fun d => get_value_from_dict cf d.source) = keys.map Except.ok) :
    ∀ seen : List Value,
      dupActs cf index seen docs =
        maskTrue (dupFlags seen keys) (docs.map fun d => mkDeleteAction index d.id) := by
  induction docs generalizing keys with
  | nil =>
    cases keys with
    | nil => intro seen; rfl
    | cons k ks => simp at h
  | cons d ds ih =>
    cases keys with
    | nil => simp at h
    | cons k ks =>
      simp only [List.map_cons, List.cons.injEq] at h
      intro seen
      by_cases hk : k ∈ seen
      · rw [dupActs_cons_seen cf index d ds seen k h.1 hk,
          show dupFlags seen (k :: ks) = true :: dupFlags seen ks from by simp [dupFlags, hk]]
        simp only [List.map_cons, maskTrue]
        rw [ih ks h.2 seen]
      · rw [dupActs_cons_new cf index d ds seen k h.1 hk,
          show dupFlags seen (k :: ks) = false :: dupFlags (seen ++ [k]) ks from by
            simp [dupFlags, hk]]
        simp only [List.map_cons, maskTrue]
        rw [ih ks h.2 (seen ++ [k])]

theorem dupFlags_getD (keys : List Value) :
    ∀ (seen : List Value) (i : Nat), i < keys.length →
      (dupFlags seen keys).getD i false =
        decide (keys.getD i (Value.scalar "") ∈ seen ∨
                keys.getD i (Value.scalar "") ∈ keys.take i) := by
  induction keys with
  | nil => intro seen i hi; simp at hi
  | cons v vs ih =>
    intro seen i hi
    cases i with
    | zero =>
      by_cases hv : v ∈ seen <;> simp [dupFlags, hv]
    | succ i =>
      have hi' : i < vs.length := by simpa using hi
      by_cases hv : v ∈ seen
      · rw [show dupFlags seen (v :: vs) = true :: dupFlags seen vs from by simp [dupFlags, hv]]
        simp only [List.getD_cons_succ, List.take_succ_cons]
        rw [ih seen i hi', decide_eq_decide]
        simp only [List.mem_cons]
        constructor
        · rintro (h1 | h1)
          · exact Or.inl h1
          · exact Or.inr (Or.inr h1)
        · rintro (h1 | h1 | h1)
          · exact Or.inl h1
          · exact Or.inl (h1 ▸ hv)
          · exact Or.inr h1
      · rw [show dupFlags seen (v :: vs) = false :: dupFlags (seen ++ [v]) vs from by
            simp [dupFlags, hv]]
        simp only [List.getD_cons_succ, List.take_succ_cons]
        rw [ih (seen ++ [v]) i hi', decide_eq_decide]
        simp only [List.mem_cons, List.mem_append, List.mem_singleton]
        tauto

theorem scan_count (cf index : String) (ds : List Document) :
    ∀ seen : List Value,
      (dupActs cf index seen ds).length + (seenAfter cf seen ds).length +
        (errsOf cf ds).length = ds.length + seen.length := by
  induction ds with
  | nil => intro seen; simp [dupActs, seenAfter, errsOf]
  | cons d ds ih =>
    intro seen
    cases h : get_value_from_dict cf d.source with
    | error e =>
      rw [dupActs_cons_error cf index d ds seen e h, seenAfter_cons_error cf d ds seen e h,
        errsOf_cons_error cf d ds e h]
      have := ih seen
      simp only [List.length_cons]
      omega
    | ok v =>
      by_cases hv : v ∈ seen
      · rw [dupActs_cons_seen cf index d ds seen v h hv, seenAfter_cons_seen cf d ds seen v h hv,
          errsOf_cons_ok cf d ds v h]
        have := ih seen
        simp only [List.length_cons]
        omega
      · rw [dupActs_cons_new cf index d ds seen v h hv, seenAfter_cons_new cf d ds seen v h hv,
          errsOf_cons_ok cf d ds v h]
        have h2 := ih (seen ++ [v])
        rw [List.length_append] at h2
        simp only [List.length_cons, List.length_nil] at h2
        simp only [List.length_cons]
        omega

theorem seenAfter_mem (cf : String) (docs : List Document) :
    ∀ (seen : List Value) (v : Value),
      v ∈ seenAfter cf seen docs ↔ v ∈ seen ∨ v ∈ okValues cf docs := by
  induction docs with
  | nil => intro seen v; simp [seenAfter, okValues]
  | cons d ds ih =>
    intro seen v
    cases h : get_value_from_dict cf d.source with
    | error e =>
      rw [seenAfter_cons_error cf d ds seen e h, okValues_cons_error cf d ds e h]
      exact ih seen v
    | ok w =>
      by_cases hw : w ∈ seen
      · rw [seenAfter_cons_seen cf d ds seen w h hw, okValues_cons_ok cf d ds w h, ih seen v]
        simp only [List.mem_cons]
        constructor
        · rintro (h1 | h1)
          · exact Or.inl h1
          · exact Or.inr (Or.inr h1)
        · rintro (h1 | h1 | h1)
          · exact Or.inl h1
          · exact Or.inl (h1 ▸ hw)
          · exact Or.inr h1
      · rw [seenAfter_cons_new cf d ds seen w h hw, okValues_cons_ok cf d ds w h,
          ih (seen ++ [w]) v]
        simp only [List.mem_cons, List.mem_append, List.mem_singleton]
        tauto

theorem seenAfter_nodup (cf : String) (docs : List Document) :
    ∀ seen : List Value, seen.Nodup → (seenAfter cf seen docs).Nodup := by
  induction docs with
  | nil => intro seen hs; simpa [seenAfter] using hs
  | cons d ds ih =>
    intro seen hs
    cases h : get_value_from_dict cf d.source with
    | error e =>
      rw [seenAfter_cons_error cf d ds seen e h]
      exact ih seen hs
    | ok v =>
      by_cases hv : v ∈ seen
      · rw [seenAfter_cons_seen cf d ds seen v h hv]
        exact ih seen hs
      · rw [seenAfter_cons_new cf d ds seen v h hv]
        refine ih (seen ++ [v]) ?_
        simp [List.nodup_append, hs, hv]

theorem seenAfter_length_dedup (cf : String) (docs : List Document) (keys : List Value)
    (h : docs.map (fun d => get_value_from_dict cf d.source) = keys.map Except.ok) :
    (seenAfter cf [] docs).length = keys.dedup.length := by
  have h1 : (seenAfter cf [] docs).Nodup := seenAfter_nodup cf docs [] List.nodup_nil
  have h2 : keys.dedup.Nodup := List.nodup_dedup keys
  have hm : ∀ v, v ∈ seenAfter cf [] docs ↔ v ∈ keys.dedup := by
    intro v
    rw [List.mem_dedup, seenAfter_mem, okValues_of_all_ok cf docs keys h]
    simp
  exact ((List.perm_ext_iff_of_nodup h1 h2).2 hm).length_eq

theorem errsOf_append (cf : String) (xs ys : List Document) :
    errsOf cf (xs ++ ys) = errsOf cf xs ++ errsOf cf ys := by
  simp [errsOf, List.filterMap_append]

theorem dupActs_insert_bad (cf index : String) (bad : Document) (e : ExtractError)
    (hb : get_value_from_dict cf bad.source = Except.error e) (pre : List Document) :
    ∀ (seen : List Value) (post : List Document),
      dupActs cf index seen (pre ++ bad :: post) = dupActs cf index seen (pre ++ post) := by
  induction pre with
  | nil =>
    intro seen post
    simpa using dupActs_cons_error cf index bad post seen e hb
  | cons d ds ih =>
    intro seen post
    cases h : get_value_from_dict cf d.source with
    | error e2 =>
      rw [List.cons_append, List.cons_append, dupActs_cons_error cf index d _ seen e2 h,
        dupActs_cons_error cf index d _ seen e2 h, ih seen post]
    | ok v =>
      by_cases hv : v ∈ seen
      · rw [List.cons_append, List.cons_append, dupActs_cons_seen cf index d _ seen v h hv,
          dupActs_cons_seen cf index d _ seen v h hv, ih seen post]
      · rw [List.cons_append, List.cons_append, dupActs_cons_new cf index d _ seen v h hv,
          dupActs_cons_new cf index d _ seen v h hv, ih (seen ++ [v]) post]

theorem seenAfter_insert_bad (cf : String) (bad : Document) (e : ExtractError)
    (hb : get_value_from_dict cf bad.source = Except.error e) (pre : List Document) :
    ∀ (seen : List Value) (post : List Document),
      seenAfter cf seen (pre ++ bad :: post) = seenAfter cf seen (pre ++ post) := by
  induction pre with
  | nil =>
    intro seen post
    simpa using seenAfter_cons_error cf bad post seen e hb
  | cons d ds ih =>
    intro seen post
    cases h : get_value_from_dict cf d.source with
    | error e2 =>
      rw [List.cons_append, List.cons_append, seenAfter_cons_error cf d _ seen e2 h,
        seenAfter_cons_error cf d _ seen e2 h, ih seen post]
    | ok v =>
      by_cases hv : v ∈ seen
      · rw [List.cons_append, List.cons_append, seenAfter_cons_seen cf d _ seen v h hv,
          seenAfter_cons_seen cf d _ seen v h hv, ih seen post]
      · rw [List.cons_append, List.cons_append, seenAfter_cons_new cf d _ seen v h hv,
          seenAfter_cons_new cf d _ seen v h hv, ih (seen ++ [v]) post]

theorem dupActs_eq_dupDocs_map (cf index : String) (ds : List Document) :
    ∀ seen : List Value,
      dupActs cf index seen ds = (dupDocs cf seen ds).map fun d => mkDeleteAction index d.id := by
  induction ds with
  | nil => intro seen; rfl
  | cons d ds ih =>
    intro seen
    cases h : get_value_from_dict cf d.source with
    | error e =>
      rw [dupActs_cons_error cf index d ds seen e h,
        show dupDocs cf seen (d :: ds) = dupDocs cf seen ds from by simp [dupDocs, h], ih seen]
    | ok v =>
      by_cases hv : v ∈ seen
      · rw [dupActs_cons_seen cf index d ds seen v h hv,
          show dupDocs cf seen (d :: ds) = d :: dupDocs cf seen ds from by simp [dupDocs, h, hv],
          List.map_cons, ih seen]
      · rw [dupActs_cons_new cf index d ds seen v h hv,
          show dupDocs cf seen (d :: ds) = dupDocs cf (seen ++ [v]) ds from by
            simp [dupDocs, h, hv],
          ih (seen ++ [v])]

theorem survivors_dupDocs_length (cf : String) (ds : List Document) :
    ∀ seen : List Value,
      (survivors cf seen ds).length + (dupDocs cf seen ds).length = ds.length := by
  induction ds with
  | nil => intro seen; rfl
  | cons d ds ih =>
    intro seen
    cases h : get_value_from_dict cf d.source with
    | error e =>
      rw [show survivors cf seen (d :: ds) = d :: survivors cf seen ds from by
            simp [survivors, h],
        show dupDocs cf seen (d :: ds) = dupDocs cf seen ds from by simp [dupDocs, h]]
      simp only [List.length_cons]
      have := ih seen
      omega
    | ok v =>
      by_cases hv : v ∈ seen
      · rw [show survivors cf seen (d :: ds) = survivors cf seen ds from by
              simp [survivors, h, hv],
          show dupDocs cf seen (d :: ds) = d :: dupDocs cf seen ds from by simp [dupDocs, h, hv]]
        simp only [List.length_cons]
        have := ih seen
        omega
      · rw [show survivors cf seen (d :: ds) = d :: survivors cf (seen ++ [v]) ds from by
              simp [survivors, h, hv],
          show dupDocs cf seen (d :: ds) = dupDocs cf (seen ++ [v]) ds from by
            simp [dupDocs, h, hv]]
        simp only [List.length_cons]
        have := ih (seen ++ [v])
        omega

theorem dupActs_survivors (cf index : String) (ds : List Document) :
    ∀ seen : List Value, dupActs cf index seen (survivors cf seen ds) = [] := by
  induction ds with
  | nil => intro seen; rfl
  | cons d ds ih =>
    intro seen
    cases h : get_value_from_dict cf d.source with
    | error e =>
      rw [show survivors cf seen (d :: ds) = d :: survivors cf seen ds from by
            simp [survivors, h],
        dupActs_cons_error cf index d _ seen e h, ih seen]
    | ok v =>
      by_cases hv : v ∈ seen
      · rw [show survivors cf seen (d :: ds) = survivors cf seen ds from by
              simp [survivors, h, hv],
          ih seen]
      · rw [show survivors cf seen (d :: ds) = d :: survivors cf (seen ++ [v]) ds from by
              simp [survivors, h, hv],
          dupActs_cons_new cf index d _ seen v h hv, ih (seen ++ [v])]

theorem errsOf_survivors (cf : String) (ds : List Document) :
    ∀ seen : List Value, errsOf cf (survivors cf seen ds) = errsOf cf ds := by
  induction ds with
  | nil => intro seen; rfl
  | cons d ds ih =>
    intro seen
    cases h : get_value_from_dict cf d.source with
    | error e =>
      rw [show survivors cf seen (d :: ds) = d :: survivors cf seen ds from by
            simp [survivors, h],
        errsOf_cons_error cf d _ e h, errsOf_cons_error cf d ds e h, ih seen]
    | ok v =>
      by_cases hv : v ∈ seen
      · rw [show survivors cf seen (d :: ds) = survivors cf seen ds from by
              simp [survivors, h, hv],
          errsOf_cons_ok cf d ds v h, ih seen]
      · rw [show survivors cf seen (d :: ds) = d :: survivors cf (seen ++ [v]) ds from by
              simp [survivors, h, hv],
          errsOf_cons_ok cf d _ v h, errsOf_cons_ok cf d ds v h, ih (seen ++ [v])]

theorem errsOf_eq_nil_iff (cf : String) (docs : List Document) :
    errsOf cf docs = [] ↔
      ∀ d ∈ docs, ∀ e, get_value_from_dict cf d.source ≠ Except.error e := by
  induction docs with
  | nil => simp [errsOf]
  | cons d ds ih =>
    cases h : get_value_from_dict cf d.source with
    | error e =>
      rw [errsOf_cons_error cf d ds e h]
      constructor
      · intro hfalse; exact absurd hfalse (List.cons_ne_nil e _)
      · intro hall; exact absurd h (hall d (List.mem_cons_self d ds) e)
    | ok v =>
      rw [errsOf_cons_ok cf d ds v h, ih]
      constructor
      · intro hall d2 hd2 e2
        rcases List.mem_cons.1 hd2 with h2 | h2
        · subst h2; rw [h]; intro hc; exact Except.noConfusion hc
        · exact hall d2 h2 e2
      · intro hall d2 hd2 e2
        exact hall d2 (List.mem_cons_of_mem d hd2) e2

theorem errsOf_ne_nil_iff (cf : String) (docs : List Document) :
    errsOf cf docs ≠ [] ↔
      ∃ d ∈ docs, ∃ e, get_value_from_dict cf d.source = Except.error e := by
  rw [Ne, errsOf_eq_nil_iff]
  push_neg
  rfl

theorem remove_documents_events (cb : ClientBehavior) (actions : List DeleteAction)
    (index : String) :
    (remove_documents cb actions index).1 = [Event.bulkCall actions, Event.refreshCall index] := by
  rcases cb with ⟨errs, rok⟩
  cases rok <;> cases errs <;> simp [remove_documents]

theorem str_to_bool_eq (s : String) :
    str_to_bool s =
      if pyLower (pyStrip s) ∈ (["true", "yes", "y", "1", "t"] : List String) then Except.ok true
      else if pyLower (pyStrip s) ∈ (["false", "no", "n", "0", "f"] : List String) then
        Except.ok false
      else Except.error ("Cannot convert " ++ s ++ " to a bool") := rfl

/-- C1: when the fields of every document contain the configured comparison
path (extraction yields `keys` in scan order), `get_bulk_actions` does not
raise and returns exactly one delete action `{op=delete, index, id}` per
document whose key already occurred at an earlier scan position (the
position-`i` duplicate flag is true exactly when `keys[i]` occurs among
`keys.take i`, so the first document of each distinct key is always the
one kept), and the number of actions is the total document count minus the
number of distinct key values. -/
theorem get_bulk_actions_dedup_correct (docs : List Document) (keys : List Value)
    (cf index : String)
    (h : docs.map (fun d => get_value_from_dict cf d.source) = keys.map Except.ok) :
    ∃ acts, get_bulk_actions docs cf index = Except.ok acts
      ∧ acts = maskTrue (dupFlags [] keys) (docs.map fun d => mkDeleteAction index d.id)
      ∧ (∀ i : Nat, i < keys.length →
          ((dupFlags [] keys).getD i false = true ↔
            keys.getD i (Value.scalar "") ∈ keys.take i))
      ∧ acts.length = docs.length - keys.dedup.length := by
  refine ⟨dupActs cf index [] docs, ?_, dupActs_mask cf index docs keys h [], ?_, ?_⟩
  · rw [get_bulk_actions_eq, if_pos (errsOf_of_all_ok cf docs keys h)]
  · intro i hi
    rw [dupFlags_getD keys [] i hi]
    simp
  · have hc := scan_count cf index docs []
    rw [errsOf_of_all_ok cf docs keys h] at hc
    have hs := seenAfter_length_dedup cf docs keys h
    simp only [List.length_nil] at hc
    omega

/-- Witness for C1 at the example given by the spec: four documents with keys
A, B, A, A; the two later A-documents get delete actions. -/
theorem get_bulk_actions_dedup_correct_witness :
    ([⟨"1", Value.dict (Entries.cons "key" (Value.scalar "A") Entries.nil)⟩,
      ⟨"2", Value.dict (Entries.cons "key" (Value.scalar "B") Entries.nil)⟩,
      ⟨"3", Value.dict (Entries.cons "key" (Value.scalar "A") Entries.nil)⟩,
      ⟨"4", Value.dict (Entries.cons "key" (Value.scalar "A") Entries.nil)⟩] :
        List Document).map (fun d => get_value_from_dict "key" d.source) =
      [Value.scalar "A", Value.scalar "B", Value.scalar "A", Value.scalar "A"].map Except.ok
    ∧ get_bulk_actions
        [⟨"1", Value.dict (Entries.cons "key" (Value.scalar "A") Entries.nil)⟩,
         ⟨"2", Value.dict (Entries.cons "key" (Value.scalar "B") Entries.nil)⟩,
         ⟨"3", Value.dict (Entries.cons "key" (Value.scalar "A") Entries.nil)⟩,
         ⟨"4", Value.dict (Entries.cons "key" (Value.scalar "A") Entries.nil)⟩]
        "key" "jobs" =
      Except.ok [mkDeleteAction "jobs" "3", mkDeleteAction "jobs" "4"] := by
  constructor
  · rfl
  · obtain ⟨acts, h1, h2, h3, h4⟩ :=
      get_bulk_actions_dedup_correct
        [⟨"1", Value.dict (Entries.cons "key" (Value.scalar "A") Entries.nil)⟩,
         ⟨"2", Value.dict (Entries.cons "key" (Value.scalar "B") Entries.nil)⟩,
         ⟨"3", Value.dict (Entries.cons "key" (Value.scalar "A") Entries.nil)⟩,
         ⟨"4", Value.dict (Entries.cons "key" (Value.scalar "A") Entries.nil)⟩]
        [Value.scalar "A", Value.scalar "B", Value.scalar "A", Value.scalar "A"]
        "key" "jobs" rfl
    rw [h1, h2]
    rfl

/-- C2: a document whose key extraction fails is neither added to the
seen-value set nor emitted as a delete action — the scan of the sequence
with the failing document produces exactly the same `seen_values` and
`bulk_actions` as the scan without it — and the document is only recorded
among the collected exceptions. -/
theorem scan_extraction_failure_isolated (cf index : String) (pre post : List Document)
    (bad : Document) (e : ExtractError)
    (hb : get_value_from_dict cf bad.source = Except.error e) :
    (scanLoop cf index (pre ++ bad :: post) [] [] []).bulk_actions =
        (scanLoop cf index (pre ++ post) [] [] []).bulk_actions
    ∧ (scanLoop cf index (pre ++ bad :: post) [] [] []).seen_values =
        (scanLoop cf index (pre ++ post) [] [] []).seen_values
    ∧ (scanLoop cf index (pre ++ bad :: post) [] [] []).exceptions =
        errsOf cf pre ++ e :: errsOf cf post := by
  rw [scanLoop_eq, scanLoop_eq]
  refine ⟨?_, ?_, ?_⟩
  · simp only [List.nil_append]
    exact dupActs_insert_bad cf index bad e hb pre [] post
  · exact seenAfter_insert_bad cf bad e hb pre [] post
  · simp only [List.nil_append]
    rw [errsOf_append, errsOf_cons_error cf bad post e hb]

/-- Witness for C2: a malformed middle document between two documents with
the same key leaves the duplicate classification unchanged. -/
theorem scan_extraction_failure_isolated_witness :
    get_value_from_dict "key" (Value.dict Entries.nil) = Except.error (.valueError "key")
    ∧ (scanLoop "key" "jobs"
        [⟨"1", Value.dict (Entries.cons "key" (Value.scalar "A") Entries.nil)⟩,
         ⟨"bad", Value.dict Entries.nil⟩,
         ⟨"2", Value.dict (Entries.cons "key" (Value.scalar "A") Entries.nil)⟩]
        [] [] []).bulk_actions =
      (scanLoop "key" "jobs"
        [⟨"1", Value.dict (Entries.cons "key" (Value.scalar "A") Entries.nil)⟩,
         ⟨"2", Value.dict (Entries.cons "key" (Value.scalar "A") Entries.nil)⟩]
        [] [] []).bulk_actions := by
  refine ⟨rfl, ?_⟩
  exact (scan_extraction_failure_isolated "key" "jobs"
    [⟨"1", Value.dict (Entries.cons "key" (Value.scalar "A") Entries.nil)⟩]
    [⟨"2", Value.dict (Entries.cons "key" (Value.scalar "A") Entries.nil)⟩]
    ⟨"bad", Value.dict Entries.nil⟩ (.valueError "key") rfl).1

/-- C3: `get_bulk_actions` raises the aggregated error exactly when some
document has a failing extraction, the raised error carries the complete
in-order list of collected failures, and failure collection covers the
whole input (it splits over any decomposition of the input, so a failing
document never cuts the scan short). -/
theorem get_bulk_actions_aggregated_error (docs : List Document) (cf index : String) :
    ((∃ d ∈ docs, ∃ e, get_value_from_dict cf d.source = Except.error e) ↔
        get_bulk_actions docs cf index = Except.error (errsOf cf docs))
    ∧ (errsOf cf docs = [] →
        get_bulk_actions docs cf index = Except.ok (dupActs cf index [] docs))
    ∧ (∀ pre post, docs = pre ++ post →
        errsOf cf docs = errsOf cf pre ++ errsOf cf post) := by
  refine ⟨?_, ?_, ?_⟩
  · rw [get_bulk_actions_eq]
    by_cases hn : errsOf cf docs = []
    · rw [if_pos hn]
      constructor
      · intro hex
        exact absurd hn ((errsOf_ne_nil_iff cf docs).2 hex)
      · intro heq
        exact Except.noConfusion heq
    · rw [if_neg hn]
      exact ⟨fun _ => rfl, fun _ => (errsOf_ne_nil_iff cf docs).1 hn⟩
  · intro hn
    rw [get_bulk_actions_eq, if_pos hn]
  · intro pre post hsplit
    rw [hsplit, errsOf_append]

/-- Witness for C3: one failing document among two valid ones makes
`get_bulk_actions` raise with exactly that failure; without failures it
returns the delete actions. -/
theorem get_bulk_actions_aggregated_error_witness :
    get_bulk_actions
        [⟨"1", Value.dict (Entries.cons "key" (Value.scalar "A") Entries.nil)⟩,
         ⟨"bad", Value.scalar "notadict"⟩,
         ⟨"2", Value.dict (Entries.cons "key" (Value.scalar "A") Entries.nil)⟩]
        "key" "jobs" =
      Except.error
        (errsOf "key"
          [⟨"1", Value.dict (Entries.cons "key" (Value.scalar "A") Entries.nil)⟩,
           ⟨"bad", Value.scalar "notadict"⟩,
           ⟨"2", Value.dict (Entries.cons "key" (Value.scalar "A") Entries.nil)⟩]) :=
  (get_bulk_actions_aggregated_error
    [⟨"1", Value.dict (Entries.cons "key" (Value.scalar "A") Entries.nil)⟩,
     ⟨"bad", Value.scalar "notadict"⟩,
     ⟨"2", Value.dict (Entries.cons "key" (Value.scalar "A") Entries.nil)⟩]
    "key" "jobs").1.1
    ⟨⟨"bad", Value.scalar "notadict"⟩, by simp, ExtractError.attributeError, rfl⟩

/-- C4 counterexample: when the refresh call fails while the batch also
reported a per-action failure, `remove_documents` raises the
refresh-failure error, not the aggregated bulk error — so "raises the
aggregated bulk error iff the batch reported failures" is false. -/
theorem remove_documents_bulk_error_iff_counterexample :
    (⟨["boom"], false⟩ : ClientBehavior).bulk_errors ≠ []
    ∧ (remove_documents ⟨["boom"], false⟩ [] "idx4").2 =
        some (RemoveError.refreshFailed "idx4")
    ∧ (remove_documents ⟨["boom"], false⟩ [] "idx4").2 ≠
        some (RemoveError.bulkErrors ["boom"]) := by
  refine ⟨?_, rfl, ?_⟩
  · intro h; exact List.noConfusion h
  · intro h
    have h1 : some (RemoveError.refreshFailed "idx4") =
        some (RemoveError.bulkErrors ["boom"]) := by
      rw [show (remove_documents ⟨["boom"], false⟩ [] "idx4").2 =
          some (RemoveError.refreshFailed "idx4") from rfl] at h
      exact h
    injection h1 with h2
    exact RemoveError.noConfusion h2

/-- C4 amended: `remove_documents` submits the batch delete first and then
attempts the refresh (both calls are always issued, in that order); it
raises the refresh-failure error exactly when the refresh call errors, and
it raises the aggregated bulk error exactly when the refresh succeeded and
the batch reported at least one per-action failure (a failing refresh
preempts the bulk error). -/
theorem remove_documents_order_and_errors (cb : ClientBehavior) (actions : List DeleteAction)
    (index : String) :
    (remove_documents cb actions index).1 = [Event.bulkCall actions, Event.refreshCall index]
    ∧ ((remove_documents cb actions index).2 = some (RemoveError.refreshFailed index) ↔
        cb.refresh_ok = false)
    ∧ ((remove_documents cb actions index).2 = some (RemoveError.bulkErrors cb.bulk_errors) ↔
        cb.refresh_ok = true ∧ cb.bulk_errors ≠ [])
    ∧ ((remove_documents cb actions index).2 = none ↔
        cb.refresh_ok = true ∧ cb.bulk_errors = []) := by
  rcases cb with ⟨errs, rok⟩
  cases rok <;> cases errs <;> simp [remove_documents]

/-- C5 counterexample: with a single document whose extraction fails, the
scan detects zero duplicates, yet `get_bulk_actions` raises the aggregated
error instead of returning an empty list. -/
theorem get_bulk_actions_zero_duplicates_counterexample :
    dupActs "key" "idx5" [] [⟨"d5", Value.scalar "notadict"⟩] = []
    ∧ get_bulk_actions [⟨"d5", Value.scalar "notadict"⟩] "key" "idx5" =
        Except.error [ExtractError.attributeError]
    ∧ get_bulk_actions [⟨"d5", Value.scalar "notadict"⟩] "key" "idx5" ≠
        Except.ok [] := by
  refine ⟨rfl, rfl, ?_⟩
  intro h
  rw [show get_bulk_actions [⟨"d5", Value.scalar "notadict"⟩] "key" "idx5" =
      Except.error [ExtractError.attributeError] from rfl] at h
  exact Except.noConfusion h

/-- C5 amended: when the scan detects zero duplicates and no extraction
failure occurred, `get_bulk_actions` returns an empty list without
raising; when any extraction failure occurred it raises the aggregated
error even though zero duplicates were detected. -/
theorem get_bulk_actions_zero_duplicates (docs : List Document) (cf index : String)
    (hdup : dupActs cf index [] docs = []) :
    (errsOf cf docs = [] → get_bulk_actions docs cf index = Except.ok [])
    ∧ (errsOf cf docs ≠ [] →
        get_bulk_actions docs cf index = Except.error (errsOf cf docs)) := by
  constructor
  · intro herr
    rw [get_bulk_actions_eq, if_pos herr, hdup]
  · intro herr
    rw [get_bulk_actions_eq, if_neg herr]

/-- Witness for the amended C5: two distinct-key documents yield zero
duplicates and an empty action list. -/
theorem get_bulk_actions_zero_duplicates_witness :
    dupActs "key" "idx5w" []
        [⟨"1", Value.dict (Entries.cons "key" (Value.scalar "A") Entries.nil)⟩,
         ⟨"2", Value.dict (Entries.cons "key" (Value.scalar "B") Entries.nil)⟩] = []
    ∧ get_bulk_actions
        [⟨"1", Value.dict (Entries.cons "key" (Value.scalar "A") Entries.nil)⟩,
         ⟨"2", Value.dict (Entries.cons "key" (Value.scalar "B") Entries.nil)⟩]
        "key" "idx5w" = Except.ok [] :=
  ⟨rfl,
    (get_bulk_actions_zero_duplicates
      [⟨"1", Value.dict (Entries.cons "key" (Value.scalar "A") Entries.nil)⟩,
       ⟨"2", Value.dict (Entries.cons "key" (Value.scalar "B") Entries.nil)⟩]
      "key" "idx5w" rfl).1 rfl⟩

theorem main_core_eq (index cf dr : String) (docs : List Document) (cb : ClientBehavior) :
    main_core index cf dr docs cb =
      if (errsOf cf docs).length > 0 then
        ⟨[.scanCall index], some (.aggregatedExtraction (errsOf cf docs)), []⟩
      else if (dupActs cf index [] docs).length = 0 then ⟨[.scanCall index], none, []⟩
      else
        match str_to_bool dr with
        | .error _ => ⟨[.scanCall index], some (.invalidDryRun dr), []⟩
        | .ok true => ⟨[.scanCall index], none, dupActs cf index [] docs⟩
        | .ok false =>
          ⟨Event.scanCall index :: (remove_documents cb (dupActs cf index [] docs) index).1,
            (remove_documents cb (dupActs cf index [] docs) index).2.map .removeErr, []⟩ := by
  unfold main_core
  rw [scanLoop_eq]
  rfl

/-- C6: with the dry-run flag parsing to true, `main` issues no mutating
call to the index client (no batch delete, no refresh — only the read-only
scan), and the delete-action list it prints for audit is exactly the list
a non-dry-run execution over the same input submits to the index. -/
theorem main_dry_run_guarantee (url user pw index cf dr : String) (docs : List Document)
    (cb : ClientBehavior) (hdr : str_to_bool dr = Except.ok true) :
    (∀ e ∈ (main_run ⟨some url, some user, some pw, some index, some cf, dr⟩ docs cb).events,
        e.isMutation = false)
    ∧ (main_run ⟨some url, some user, some pw, some index, some cf, dr⟩ docs cb).logged_actions =
        submittedActions
          (main_run ⟨some url, some user, some pw, some index, some cf, "false"⟩ docs cb).events := by
  have hf : str_to_bool "false" = Except.ok false := rfl
  rw [show main_run ⟨some url, some user, some pw, some index, some cf, dr⟩ docs cb =
        main_core index cf dr docs cb from rfl,
    show main_run ⟨some url, some user, some pw, some index, some cf, "false"⟩ docs cb =
        main_core index cf "false" docs cb from rfl,
    main_core_eq, main_core_eq, hdr, hf]
  by_cases hE : (errsOf cf docs).length > 0
  · simp [hE, Event.isMutation, submittedActions]
  · by_cases hA : (dupActs cf index [] docs).length = 0
    · simp [hE, hA, Event.isMutation, submittedActions]
    · simp [hE, hA, Event.isMutation, submittedActions, remove_documents_events]

/-- Witness for C6: a concrete dry run over two duplicate documents logs
the one delete action the non-dry-run execution would submit, with no
mutating client call. -/
theorem main_dry_run_guarantee_witness :
    str_to_bool "true" = Except.ok true
    ∧ (∀ e ∈ (main_run
          ⟨some "u", some "us", some "pw", some "idx6", some "key", "true"⟩
          [⟨"1", Value.dict (Entries.cons "key" (Value.scalar "A") Entries.nil)⟩,
           ⟨"2", Value.dict (Entries.cons "key" (Value.scalar "A") Entries.nil)⟩]
          ⟨[], true⟩).events, e.isMutation = false)
    ∧ (main_run ⟨some "u", some "us", some "pw", some "idx6", some "key", "true"⟩
          [⟨"1", Value.dict (Entries.cons "key" (Value.scalar "A") Entries.nil)⟩,
           ⟨"2", Value.dict (Entries.cons "key" (Value.scalar "A") Entries.nil)⟩]
          ⟨[], true⟩).logged_actions =
        submittedActions
          (main_run ⟨some "u", some "us", some "pw", some "idx6", some "key", "false"⟩
            [⟨"1", Value.dict (Entries.cons "key" (Value.scalar "A") Entries.nil)⟩,
             ⟨"2", Value.dict (Entries.cons "key" (Value.scalar "A") Entries.nil)⟩]
            ⟨[], true⟩).events := by
  refine ⟨rfl, ?_, ?_⟩
  · exact (main_dry_run_guarantee "u" "us" "pw" "idx6" "key" "true"
      [⟨"1", Value.dict (Entries.cons "key" (Value.scalar "A") Entries.nil)⟩,
       ⟨"2", Value.dict (Entries.cons "key" (Value.scalar "A") Entries.nil)⟩]
      ⟨[], true⟩ rfl).1
  · exact (main_dry_run_guarantee "u" "us" "pw" "idx6" "key" "true"
      [⟨"1", Value.dict (Entries.cons "key" (Value.scalar "A") Entries.nil)⟩,
       ⟨"2", Value.dict (Entries.cons "key" (Value.scalar "A") Entries.nil)⟩]
      ⟨[], true⟩ rfl).2

/-- C7 counterexample: with all five required settings present but an
invalid dry-run value, a run over an index containing duplicates raises
the dry-run configuration error only after the index scan (the scan event
is already in the trace), and a run over an index with no duplicates never
reports the invalid dry-run value at all. -/
theorem main_config_validation_counterexample :
    str_to_bool "banana" = Except.error "Cannot convert banana to a bool"
    ∧ (main_run ⟨some "u", some "us", some "pw", some "idx7", some "key", "banana"⟩
        [⟨"1", Value.dict (Entries.cons "key" (Value.scalar "A") Entries.nil)⟩,
         ⟨"2", Value.dict (Entries.cons "key" (Value.scalar "A") Entries.nil)⟩]
        ⟨[], true⟩).error = some (MainError.invalidDryRun "banana")
    ∧ (main_run ⟨some "u", some "us", some "pw", some "idx7", some "key", "banana"⟩
        [⟨"1", Value.dict (Entries.cons "key" (Value.scalar "A") Entries.nil)⟩,
         ⟨"2", Value.dict (Entries.cons "key" (Value.scalar "A") Entries.nil)⟩]
        ⟨[], true⟩).events = [Event.scanCall "idx7"]
    ∧ (main_run ⟨some "u", some "us", some "pw", some "idx7", some "key", "banana"⟩
        [⟨"1", Value.dict (Entries.cons "key" (Value.scalar "A") Entries.nil)⟩]
        ⟨[], true⟩).error = none :=
  ⟨rfl, rfl, rfl, rfl⟩

/-- C7 amended: a missing required setting (any of the five environment
variables) is reported as the configuration error with no index access at
all; the dry-run flag, however, is only parsed after the scan and
duplicate detection, and only when at least one duplicate was found — an
invalid dry-run value is then reported after the index was already
accessed. -/
theorem main_config_validation (docs : List Document) (cb : ClientBehavior) :
    (∀ cfg : Config,
      (cfg.es_index = none ∨ cfg.es_url = none ∨ cfg.es_user = none ∨ cfg.es_password = none ∨
        cfg.document_comparison_field = none) →
      main_run cfg docs cb = ⟨[], some MainError.failedToGetAllEnvironmentVariables, []⟩)
    ∧ (∀ url user pw index cf dr m,
        str_to_bool dr = Except.error m →
        errsOf cf docs = [] →
        dupActs cf index [] docs ≠ [] →
        main_run ⟨some url, some user, some pw, some index, some cf, dr⟩ docs cb =
          ⟨[Event.scanCall index], some (MainError.invalidDryRun dr), []⟩) := by
  constructor
  · intro cfg hmiss
    obtain ⟨u, us, pw, ix, cff, dr⟩ := cfg
    rcases u with _ | u <;> rcases us with _ | us <;> rcases pw with _ | pw <;>
      rcases ix with _ | ix <;> rcases cff with _ | cff <;>
      first
        | rfl
        | simp at hmiss
  · intro url user pw index cf dr m hstb herr hdup
    rw [show main_run ⟨some url, some user, some pw, some index, some cf, dr⟩ docs cb =
        main_core index cf dr docs cb from rfl, main_core_eq, hstb]
    have hE : ¬((errsOf cf docs).length > 0) := by rw [herr]; simp
    have hA : ¬((dupActs cf index [] docs).length = 0) := by
      intro h0
      exact hdup (List.length_eq_zero.mp h0)
    rw [if_neg hE, if_neg hA]

/-- Witness for the amended C7: a missing index name fails fast with no
index access, and an invalid dry-run value over a duplicate-containing
index is reported only after the scan. -/
theorem main_config_validation_witness :
    main_run ⟨some "u", some "us", some "pw", none, some "key", "false"⟩
        [⟨"1", Value.dict (Entries.cons "key" (Value.scalar "A") Entries.nil)⟩] ⟨[], true⟩ =
      ⟨[], some MainError.failedToGetAllEnvironmentVariables, []⟩
    ∧ main_run ⟨some "u", some "us", some "pw", some "idx7w", some "key", "zzz"⟩
        [⟨"1", Value.dict (Entries.cons "key" (Value.scalar "A") Entries.nil)⟩,
         ⟨"2", Value.dict (Entries.cons "key" (Value.scalar "A") Entries.nil)⟩]
        ⟨[], true⟩ =
      ⟨[Event.scanCall "idx7w"], some (MainError.invalidDryRun "zzz"), []⟩ :=
  ⟨(main_config_validation
      [⟨"1", Value.dict (Entries.cons "key" (Value.scalar "A") Entries.nil)⟩]
      ⟨[], true⟩).1
      ⟨some "u", some "us", some "pw", none, some "key", "false"⟩ (Or.inl rfl),
    (main_config_validation
      [⟨"1", Value.dict (Entries.cons "key" (Value.scalar "A") Entries.nil)⟩,
       ⟨"2", Value.dict (Entries.cons "key" (Value.scalar "A") Entries.nil)⟩]
      ⟨[], true⟩).2
      "u" "us" "pw" "idx7w" "key" "zzz" "Cannot convert zzz to a bool" rfl rfl
      (fun h => List.noConfusion h)⟩

/-- C8 counterexample: a document whose extraction fails is never marked
as a duplicate, so it survives the first run unchanged; re-running
`get_bulk_actions` on the remaining documents then raises the aggregated
extraction error instead of yielding an empty action list. -/
theorem get_bulk_actions_idempotent_counterexample :
    dupDocs "key" [] [⟨"d8", Value.dict Entries.nil⟩] = []
    ∧ survivors "key" [] [⟨"d8", Value.dict Entries.nil⟩] = [⟨"d8", Value.dict Entries.nil⟩]
    ∧ get_bulk_actions (survivors "key" [] [⟨"d8", Value.dict Entries.nil⟩]) "key" "idx8" =
        Except.error [ExtractError.valueError "key"]
    ∧ get_bulk_actions (survivors "key" [] [⟨"d8", Value.dict Entries.nil⟩]) "key" "idx8" ≠
        Except.ok [] := by
  refine ⟨rfl, rfl, rfl, ?_⟩
  intro h
  rw [show get_bulk_actions (survivors "key" [] [⟨"d8", Value.dict Entries.nil⟩]) "key" "idx8" =
      Except.error [ExtractError.valueError "key"] from rfl] at h
  exact Except.noConfusion h

/-- C8 amended: the delete actions the scan emits are exactly one per
document in `dupDocs` (the marked duplicates), removing exactly those
documents leaves `survivors`, and a second scan over the survivors
computes zero delete actions; the second `get_bulk_actions` call returns
an empty list whenever no extraction failure occurred, and otherwise
raises the aggregated extraction error (still with zero computed delete
actions). -/
theorem get_bulk_actions_idempotent (docs : List Document) (cf index : String) :
    dupActs cf index [] docs = (dupDocs cf [] docs).map (fun d => mkDeleteAction index d.id)
    ∧ (survivors cf [] docs).length + (dupDocs cf [] docs).length = docs.length
    ∧ dupActs cf index [] (survivors cf [] docs) = []
    ∧ (errsOf cf docs = [] →
        get_bulk_actions (survivors cf [] docs) cf index = Except.ok []) := by
  refine ⟨dupActs_eq_dupDocs_map cf index docs [], survivors_dupDocs_length cf docs [],
    dupActs_survivors cf index docs [], ?_⟩
  intro herr
  rw [get_bulk_actions_eq,
    if_pos (by rw [errsOf_survivors cf docs []]; exact herr),
    dupActs_survivors cf index docs []]

/-- Witness for the amended C8: removing the one duplicate of a
two-document run leaves a single document, on which the second run
returns an empty action list. -/
theorem get_bulk_actions_idempotent_witness :
    survivors "key" []
        [⟨"1", Value.dict (Entries.cons "key" (Value.scalar "A") Entries.nil)⟩,
         ⟨"2", Value.dict (Entries.cons "key" (Value.scalar "A") Entries.nil)⟩] =
      [⟨"1", Value.dict (Entries.cons "key" (Value.scalar "A") Entries.nil)⟩]
    ∧ get_bulk_actions
        (survivors "key" []
          [⟨"1", Value.dict (Entries.cons "key" (Value.scalar "A") Entries.nil)⟩,
           ⟨"2", Value.dict (Entries.cons "key" (Value.scalar "A") Entries.nil)⟩])
        "key" "idx8w" = Except.ok [] :=
  ⟨rfl,
    (get_bulk_actions_idempotent
      [⟨"1", Value.dict (Entries.cons "key" (Value.scalar "A") Entries.nil)⟩,
       ⟨"2", Value.dict (Entries.cons "key" (Value.scalar "A") Entries.nil)⟩]
      "key" "idx8w").2.2.2 rfl⟩

/-- C9: after stripping whitespace and lower-casing, `str_to_bool` returns
true exactly for the forms true/yes/y/1/t, false exactly for
false/no/n/0/f, and raises `ValueError` for every other string. -/
theorem str_to_bool_classification (s : String) :
    (str_to_bool s = Except.ok true ↔
        pyLower (pyStrip s) ∈ (["true", "yes", "y", "1", "t"] : List String))
    ∧ (str_to_bool s = Except.ok false ↔
        pyLower (pyStrip s) ∈ (["false", "no", "n", "0", "f"] : List String))
    ∧ ((∃ m, str_to_bool s = Except.error m) ↔
        (pyLower (pyStrip s) ∉ (["true", "yes", "y", "1", "t"] : List String) ∧
          pyLower (pyStrip s) ∉ (["false", "no", "n", "0", "f"] : List String))) := by
  rw [str_to_bool_eq]
  by_cases h1 : pyLower (pyStrip s) ∈ (["true", "yes", "y", "1", "t"] : List String)
  · by_cases h2 : pyLower (pyStrip s) ∈ (["false", "no", "n", "0", "f"] : List String)
    · exfalso
      simp only [List.mem_cons, List.not_mem_nil, or_false] at h1 h2
      rcases h1 with h1 | h1 | h1 | h1 | h1 <;> rw [h1] at h2 <;> revert h2 <;> decide
    · rw [if_pos h1]
      exact ⟨by simp [h1], by simp [h2], by simp [h1]⟩
  · by_cases h2 : pyLower (pyStrip s) ∈ (["false", "no", "n", "0", "f"] : List String)
    · rw [if_neg h1, if_pos h2]
      exact ⟨by simp [h1], by simp [h2], by simp [h2]⟩
    · rw [if_neg h1, if_neg h2]
      exact ⟨by simp [h1], by simp [h2], by simp [h1, h2]⟩

/-- Witness for C9: `" TRUE "` normalizes to `"true"` and parses to true;
`"No"` normalizes to `"no"` and parses to false; `"banana"` is rejected. -/
theorem str_to_bool_classification_witness :
    pyLower (pyStrip " TRUE ") ∈ (["true", "yes", "y", "1", "t"] : List String)
    ∧ str_to_bool " TRUE " = Except.ok true
    ∧ str_to_bool "No" = Except.ok false
    ∧ (∃ m, str_to_bool "banana" = Except.error m) :=
  ⟨by decide, (str_to_bool_classification " TRUE ").1.mpr (by decide),
    (str_to_bool_classification "No").2.1.mpr (by decide),
    (str_to_bool_classification "banana").2.2.mpr (by decide)⟩


theorem scanLoopPy_eq_scanLoop (cf index : String) (ds : List Document) :
    ∀ (seen : List Value) (acts : List DeleteAction) (errs : List ExtractError),
      (∀ d ∈ ds, ∀ v, get_value_from_dict cf d.source = Except.ok v → v.hashable = true) →
      scanLoopPy cf index ds seen acts errs = .finished (scanLoop cf index ds seen acts errs) := by
  induction ds with
  | nil => intro seen acts errs hh; rfl
  | cons d ds ih =>
    intro seen acts errs hh
    have htail : ∀ d2 ∈ ds, ∀ v, get_value_from_dict cf d2.source = Except.ok v →
        v.hashable = true :=
      fun d2 hd2 => hh d2 (List.mem_cons_of_mem d hd2)
    cases h : get_value_from_dict cf d.source with
    | error e =>
      simp [scanLoopPy, scanLoop, h, ih _ _ _ htail]
    | ok v =>
      have hv : v.hashable = true := hh d (List.mem_cons_self d ds) v h
      by_cases hm : v ∈ seen
      · simp [scanLoopPy, scanLoop, h, hv, hm, ih _ _ _ htail]
      · simp [scanLoopPy, scanLoop, h, hv, hm, ih _ _ _ htail]

theorem scanLoopPy_crash (cf index : String) (bad : Document) (v : Value)
    (hb : get_value_from_dict cf bad.source = Except.ok v) (hv : v.hashable = false)
    (post : List Document) (pre : List Document) :
    ∀ (seen : List Value) (acts : List DeleteAction) (errs : List ExtractError),
      (∀ d ∈ pre, ∀ w, get_value_from_dict cf d.source = Except.ok w → w.hashable = true) →
      scanLoopPy cf index (pre ++ bad :: post) seen acts errs = .typeError v := by
  induction pre with
  | nil =>
    intro seen acts errs hp
    simp [scanLoopPy, hb, hv]
  | cons d ds ih =>
    intro seen acts errs hp
    have htail : ∀ d2 ∈ ds, ∀ w, get_value_from_dict cf d2.source = Except.ok w →
        w.hashable = true :=
      fun d2 hd2 => hp d2 (List.mem_cons_of_mem d hd2)
    cases h : get_value_from_dict cf d.source with
    | error e =>
      rw [List.cons_append,
        show scanLoopPy cf index (d :: (ds ++ bad :: post)) seen acts errs =
          scanLoopPy cf index (ds ++ bad :: post) seen acts (errs ++ [e]) from by
            simp [scanLoopPy, h]]
      exact ih _ _ _ htail
    | ok w =>
      have hw : w.hashable = true := hp d (List.mem_cons_self d ds) w h
      by_cases hm : w ∈ seen
      · rw [List.cons_append,
          show scanLoopPy cf index (d :: (ds ++ bad :: post)) seen acts errs =
            scanLoopPy cf index (ds ++ bad :: post) seen
              (acts ++ [mkDeleteAction index d.id]) errs from by
              simp [scanLoopPy, h, hw, hm]]
        exact ih _ _ _ htail
      · rw [List.cons_append,
          show scanLoopPy cf index (d :: (ds ++ bad :: post)) seen acts errs =
            scanLoopPy cf index (ds ++ bad :: post) (seen ++ [w]) acts errs from by
              simp [scanLoopPy, h, hw, hm]]
        exact ih _ _ _ htail

/-- C10 counterexample: a nested mapping stored at the comparison path is
extracted as-is, is unhashable, and the set-membership test — outside the
try/except — raises an uncaught `TypeError` that crashes the scan loop:
`get_bulk_actions` neither returns nor raises the aggregated extraction
group, so the field contents of a document can crash the scan. -/
theorem scan_unhashable_crash_counterexample :
    get_value_from_dict "key"
        (Value.dict (Entries.cons "key" (Value.dict Entries.nil) Entries.nil)) =
      Except.ok (Value.dict Entries.nil)
    ∧ (Value.dict Entries.nil).hashable = false
    ∧ get_bulk_actions_py
        [⟨"dx", Value.dict (Entries.cons "key" (Value.dict Entries.nil) Entries.nil)⟩]
        "key" "idx10" = PyBulkResult.raisedTypeError (Value.dict Entries.nil)
    ∧ get_bulk_actions_py
        [⟨"dx", Value.dict (Entries.cons "key" (Value.dict Entries.nil) Entries.nil)⟩]
        "key" "idx10" ≠ PyBulkResult.returned []
    ∧ get_bulk_actions_py
        [⟨"dx", Value.dict (Entries.cons "key" (Value.dict Entries.nil) Entries.nil)⟩]
        "key" "idx10" ≠ PyBulkResult.raisedExceptionGroup [] := by
  refine ⟨rfl, rfl, rfl, ?_, ?_⟩
  · intro h
    rw [show get_bulk_actions_py
        [⟨"dx", Value.dict (Entries.cons "key" (Value.dict Entries.nil) Entries.nil)⟩]
        "key" "idx10" = PyBulkResult.raisedTypeError (Value.dict Entries.nil) from rfl] at h
    exact PyBulkResult.noConfusion h
  · intro h
    rw [show get_bulk_actions_py
        [⟨"dx", Value.dict (Entries.cons "key" (Value.dict Entries.nil) Entries.nil)⟩]
        "key" "idx10" = PyBulkResult.raisedTypeError (Value.dict Entries.nil) from rfl] at h
    exact PyBulkResult.noConfusion h

/-- C10 amended: the except branch of the scan loop catches every
extraction error — on any failing document, whatever the error (the
missing-key `ValueError` or the `AttributeError` from a non-mapping
intermediate value, which is exactly what the path walk returns on a
scalar), it records the failure and continues — but the scan is total
only over documents whose extracted comparison values are hashable: on
that domain the faithful loop finishes with exactly the `scanLoop`
accumulators and the collected exceptions are the per-document failures,
while a successfully extracted unhashable value (a nested mapping) makes
the set-membership test, which sits outside the try/except, raise an
uncaught `TypeError` that crashes the loop and propagates out of
`get_bulk_actions`. -/
theorem scan_catches_extraction_errors (cf index : String) :
    (∀ (seen : List Value) (acts : List DeleteAction) (errs : List ExtractError)
        (d : Document) (ds : List Document) (e : ExtractError),
        get_value_from_dict cf d.source = Except.error e →
        scanLoopPy cf index (d :: ds) seen acts errs =
          scanLoopPy cf index ds seen acts (errs ++ [e]))
    ∧ (∀ (key : String) (rest : List String) (s : String),
        walkKeys (key :: rest) (Value.scalar s) = Except.error ExtractError.attributeError)
    ∧ (∀ docs : List Document,
        (∀ d ∈ docs, ∀ v, get_value_from_dict cf d.source = Except.ok v → v.hashable = true) →
        scanLoopPy cf index docs [] [] [] = .finished (scanLoop cf index docs [] [] [])
          ∧ (scanLoop cf index docs [] [] []).exceptions = errsOf cf docs)
    ∧ (∀ (pre post : List Document) (bad : Document) (v : Value),
        (∀ d ∈ pre, ∀ w, get_value_from_dict cf d.source = Except.ok w → w.hashable = true) →
        get_value_from_dict cf bad.source = Except.ok v →
        v.hashable = false →
        get_bulk_actions_py (pre ++ bad :: post) cf index =
          PyBulkResult.raisedTypeError v) := by
  refine ⟨?_, ?_, ?_, ?_⟩
  · intro seen acts errs d ds e h
    simp [scanLoopPy, h]
  · intro key rest s
    rfl
  · intro docs hh
    refine ⟨scanLoopPy_eq_scanLoop cf index docs [] [] [] hh, ?_⟩
    rw [scanLoop_eq]
    rfl
  · intro pre post bad v hp hb hv
    unfold get_bulk_actions_py
    rw [scanLoopPy_crash cf index bad v hb hv post pre [] [] [] hp]

/-- Witness for the amended C10: a failing extraction is recorded and the
loop goes on, the hashable-domain scan finishes normally, and one
document carrying a nested mapping at the comparison path crashes the
run with the uncaught `TypeError`, never reaching the document after it. -/
theorem scan_catches_extraction_errors_witness :
    get_value_from_dict "a.b" (Value.dict (Entries.cons "a" (Value.scalar "x") Entries.nil)) =
        Except.error ExtractError.attributeError
    ∧ scanLoopPy "a.b" "idx10w"
        [⟨"d10", Value.dict (Entries.cons "a" (Value.scalar "x") Entries.nil)⟩] [] [] [] =
      scanLoopPy "a.b" "idx10w" [] [] [] ([] ++ [ExtractError.attributeError])
    ∧ get_bulk_actions_py
        [⟨"bad", Value.dict (Entries.cons "key" (Value.dict Entries.nil) Entries.nil)⟩,
         ⟨"after", Value.dict (Entries.cons "key" (Value.scalar "A") Entries.nil)⟩]
        "key" "idx10w" = PyBulkResult.raisedTypeError (Value.dict Entries.nil) :=
  ⟨rfl,
    (scan_catches_extraction_errors "a.b" "idx10w").1 [] [] []
      ⟨"d10", Value.dict (Entries.cons "a" (Value.scalar "x") Entries.nil)⟩ []
      ExtractError.attributeError rfl,
    (scan_catches_extraction_errors "key" "idx10w").2.2.2 []
      [⟨"after", Value.dict (Entries.cons "key" (Value.scalar "A") Entries.nil)⟩]
      ⟨"bad", Value.dict (Entries.cons "key" (Value.dict Entries.nil) Entries.nil)⟩
      (Value.dict Entries.nil)
      (fun d hd => absurd hd (List.not_mem_nil d)) rfl rfl⟩
